import Mathlib

/-!
Shallow embedding of the core of `src/cli.ts` (class `ModernMigrationShell`
and class `PerformanceCache`): the string-matching helpers, the status-output
parsing (`parseAppliedMigrations`), inventory scanning and reconciliation
(`loadMigrations`), the TTL cache, the filter/search engine
(`getFilteredMigrations`), selection clamping (`updateMigrationsList`), and
the externally executed command strings (`createMigration`,
`generateMigration`).

Modelling conventions: JavaScript strings are `List Char`; `Date.now()`
times and millisecond durations are `Nat`; the cache `Map` is an
association list; asynchronous I/O (directory scan, external command) is
passed in as an `Except` value; display-only rendering (blessed widgets,
emoji formatting, `size`/`hash` fields, `extractDescription`) is out of the
model except where a claim depends on it — the extracted `description` is
taken as an input of the scan.
-/

/-- JavaScript string type, modelled as a list of characters. -/
abbrev Str := List Char

/-- The character class matched by the JavaScript regex whitespace class
(used by the status-line regex in `parseAppliedMigrations`). -/
def jsIsSpace (c : Char) : Bool :=
  c = ' ' || c = '\t' || c = '\n' || c = '\r' || c = '\x0b' || c = '\x0c' ||
  c = '\u00A0' || c = '\u1680' || ('\u2000' ≤ c && c ≤ '\u200A') ||
  c = '\u2028' || c = '\u2029' || c = '\u202F' || c = '\u205F' ||
  c = '\u3000' || c = '\uFEFF'

/-- Boolean test that `p` occurs at the very start of `s`. -/
def isPrefixOfB : Str → Str → Bool
  | [], _ => true
  | _ :: _, [] => false
  | a :: as, b :: bs => a == b && isPrefixOfB as bs

/-- JavaScript `s.includes(pat)`: `pat` occurs somewhere inside `s`. -/
def strIncludes : Str → Str → Bool
  | [], pat => isPrefixOfB pat []
  | c :: rest, pat => isPrefixOfB pat (c :: rest) || strIncludes rest pat

/-- JavaScript `s.endsWith(suf)`. -/
def strEndsWith (s suf : Str) : Bool := isPrefixOfB suf.reverse s.reverse

/-- JavaScript `s.toLowerCase()` (ASCII-accurate). -/
def toLowerStr (s : Str) : Str := s.map Char.toLower

/-- JavaScript `s.trim()`: strips whitespace from both ends. -/
def trimStr (s : Str) : Str :=
  ((s.dropWhile jsIsSpace).reverse.dropWhile jsIsSpace).reverse

/-- The capture of `file.match` against an anchored leading-digit-run
pattern (`cli.ts` lines 490 and 518): the maximal digit run at the very
start of the string, `none` if the string does not start with a digit. -/
def leadingDigitRun (s : Str) : Option Str :=
  match s.takeWhile Char.isDigit with
  | [] => none
  | ds => some ds

/-- The capture of `appliedName.match` against an unanchored digit-run
pattern (`cli.ts` line 521): the first maximal digit run appearing anywhere
in the string. -/
def firstDigitRun : Str → Option Str
  | [] => none
  | c :: rest =>
    if c.isDigit then some (c :: rest.takeWhile Char.isDigit)
    else firstDigitRun rest

/-- `parseInt` on a non-empty all-digit capture (exact, no float rounding). -/
def digitsToNat (ds : Str) : Nat :=
  ds.foldl (fun acc c => acc * 10 + (c.toNat - 48)) 0

/-- JavaScript `s.split(sep)` for a single-character separator. -/
def splitOnChar (sep : Char) : Str → List Str
  | [] => [[]]
  | c :: rest =>
    if c = sep then [] :: splitOnChar sep rest
    else
      match splitOnChar sep rest with
      | [] => [[c]]
      | h :: t => (c :: h) :: t

/-- Parameter characters of an ANSI color escape (digits and semicolon). -/
def ansiParamChar (c : Char) : Bool := c.isDigit || c = ';'

/-- Fuel-indexed worker for `stripAnsi`; the fuel only bounds recursion
depth, `fuel = s.length` always suffices since every step consumes at least
one character. -/
def stripAnsiAux : Nat → Str → Str
  | 0, s => s
  | _ + 1, [] => []
  | fuel + 1, c :: rest =>
    if c = '\x1b' then
      match rest with
      | '[' :: r2 =>
        (match r2.drop (r2.takeWhile ansiParamChar).length with
         | 'm' :: r4 => stripAnsiAux fuel r4
         | _ => c :: stripAnsiAux fuel rest)
      | _ => c :: stripAnsiAux fuel rest
    else c :: stripAnsiAux fuel rest

/-- The global replace of `cli.ts` line 565: delete every ANSI color escape
sequence (ESC, an open bracket, a run of digits or semicolons, then m). -/
def stripAnsi (s : Str) : Str := stripAnsiAux s.length s

/-- The literal three-character applied marker of `cli.ts` line 562. -/
def markerX : Str := "[X]".toList

/-- The checkmark glyph marker of `cli.ts` line 562. -/
def checkGlyph : Str := "✓".toList

/-- Attempt of the status-line regex of `cli.ts` line 563 at the start of
`s`, after one of the two markers has been consumed: optional whitespace,
one or more digits, optional whitespace, then a captured maximal non-space
run.  The digit run backtracks as the JavaScript engine does: if nothing
non-space follows the maximal digit run and its trailing spaces, the last
digit of a multi-digit run is given up to the capture. -/
def matchAfterMarker (s : Str) : Option Str :=
  let s1 := s.dropWhile jsIsSpace
  match s1.takeWhile Char.isDigit with
  | [] => none
  | d :: drest =>
    let ds := d :: drest
    let cap := ((s1.drop ds.length).dropWhile jsIsSpace).takeWhile
      (fun c => !(jsIsSpace c))
    match cap with
    | [] => if drest.isEmpty then none else some [ds.getLastD d]
    | _ :: _ => some cap

/-- Attempt of the full status-line regex at the start of `s`: one of the
two markers, then `matchAfterMarker` on the remainder. -/
def matchMarkerTokenAt : Str → Option Str
  | [] => none
  | c :: rest =>
    if isPrefixOfB markerX (c :: rest) then matchAfterMarker (rest.drop 2)
    else if c = '✓' then matchAfterMarker rest
    else none

/-- Leftmost match of the status-line regex inside a line (JavaScript
`line.match(...)` semantics: earliest start position wins). -/
def findMarkerMatch : Str → Option Str
  | [] => none
  | c :: rest =>
    match matchMarkerTokenAt (c :: rest) with
    | some cap => some cap
    | none => findMarkerMatch rest

/-- `parseAppliedMigrations` (`cli.ts` lines 557-572): split the captured
stdout into lines; for every line containing a checkmark glyph or the
literal `[X]` token, run the status-line regex and, on a match, record the
captured name with ANSI escapes stripped. -/
def parseAppliedMigrations (output : Str) : List Str :=
  (splitOnChar '\n' output).filterMap fun line =>
    if strIncludes line checkGlyph || strIncludes line markerX then
      (findMarkerMatch line).map stripAnsi
    else none

/-- Migration status (`cli.ts` line 16); a closed variant in the model. -/
inductive MigStatus
  | pending
  | applied
  | failed
deriving DecidableEq, Repr

/-- One inventory record (`Migration` interface, `cli.ts` lines 12-20).
The display-only `size` and `hash` fields are omitted from the model. -/
structure Migration where
  name : Str
  timestamp : Nat
  status : MigStatus
  description : Option Str
deriving DecidableEq, Repr

/-- One directory entry as seen by the scan loop (`cli.ts` lines 485-503):
the filename, the `stats.birthtimeMs` fallback timestamp, and the
description that `extractDescription` produced from the file content. -/
structure ScanFile where
  name : Str
  birthtimeMs : Nat
  description : Option Str
deriving DecidableEq, Repr

/-- Recognized migration file extensions (`cli.ts` line 481). -/
def tsExt : Str := ".ts".toList

/-- Recognized migration file extensions (`cli.ts` line 481). -/
def jsExt : Str := ".js".toList

/-- `cli.ts` line 481: keep only `.ts` / `.js` files. -/
def isMigrationFile (name : Str) : Bool :=
  strEndsWith name tsExt || strEndsWith name jsExt

/-- `cli.ts` lines 490-491: the timestamp is the integer value of the
leading digit run of the filename, falling back to the file birth time. -/
def migrationTimestamp (f : ScanFile) : Nat :=
  match leadingDigitRun f.name with
  | some ds => digitsToNat ds
  | none => f.birthtimeMs

/-- `cli.ts` lines 493-500: build one inventory record; every scanned
record starts out `pending`. -/
def buildMigration (f : ScanFile) : Migration :=
  { name := f.name
    timestamp := migrationTimestamp f
    status := .pending
    description := f.description }

/-- Stable insertion of a record into a timestamp-sorted list (a new record
goes after existing records with an equal timestamp). -/
def insertByTs (m : Migration) : List Migration → List Migration
  | [] => [m]
  | y :: ys =>
    if y.timestamp ≤ m.timestamp then y :: insertByTs m ys
    else m :: y :: ys

/-- `cli.ts` line 505: `migrations.sort((a, b) => a.timestamp -
b.timestamp)`, modelled as a stable insertion sort (the V8 sort is
stable). -/
def sortByTimestamp (l : List Migration) : List Migration :=
  l.foldl (fun acc m => insertByTs m acc) []

/-- The scan part of `loadMigrations` (`cli.ts` lines 480-505): filter the
directory listing by extension, build one record per file, and sort by
timestamp. -/
def scanMigrations (files : List ScanFile) : List Migration :=
  sortByTimestamp ((files.filter fun f => isMigrationFile f.name).map buildMigration)

/-- `cli.ts` line 517: strip a trailing `.ts` / `.js` extension. -/
def baseNameOf (name : Str) : Str :=
  if strEndsWith name tsExt || strEndsWith name jsExt then
    name.take (name.length - 3)
  else name

/-- The applied test of `cli.ts` lines 518-523: the record's leading digit
run (of the extension-stripped name) equals, as a string, the first digit
run appearing anywhere in some recognized applied name. -/
def isAppliedMig (applied : List Str) (name : Str) : Bool :=
  match leadingDigitRun (baseNameOf name) with
  | none => false
  | some mts =>
    applied.any fun an =>
      match firstDigitRun an with
      | some ats => mts == ats
      | none => false

/-- `cli.ts` lines 525-527: on a match the status becomes `applied`,
otherwise the record is left untouched. -/
def reconcileOne (applied : List Str) (m : Migration) : Migration :=
  if isAppliedMig applied m.name then { m with status := .applied } else m

/-- The `migrations.forEach` reconciliation loop (`cli.ts` lines 516-528). -/
def reconcileAll (applied : List Str) (ms : List Migration) : List Migration :=
  ms.map (reconcileOne applied)

/-- `CacheEntry<T>` (`cli.ts` lines 31-35). -/
structure CacheEntry (α : Type) where
  data : α
  timestamp : Nat
  ttl : Nat
deriving DecidableEq, Repr

/-- JavaScript `Map.get`, on the association-list model. -/
def mapGet : List (Str × β) → Str → Option β
  | [], _ => none
  | p :: ps, k => if p.1 = k then some p.2 else mapGet ps k

/-- JavaScript `Map.set`: overwrite in place if the key exists, otherwise
append (insertion order preserved). -/
def mapSet (m : List (Str × β)) (k : Str) (v : β) : List (Str × β) :=
  if (mapGet m k).isSome then
    m.map fun p => if p.1 = k then (k, v) else p
  else m ++ [(k, v)]

/-- JavaScript `Map.delete`. -/
def mapDelete (m : List (Str × β)) (k : Str) : List (Str × β) :=
  m.filter fun p => decide (p.1 ≠ k)

/-- `PerformanceCache.DEFAULT_TTL` (`cli.ts` line 53). -/
def DEFAULT_TTL : Nat := 30000

/-- `PerformanceCache.set` (`cli.ts` lines 55-61). -/
def cacheSet (c : List (Str × CacheEntry α)) (k : Str) (v : α)
    (ttl : Nat) (now : Nat) : List (Str × CacheEntry α) :=
  mapSet c k { data := v, timestamp := now, ttl := ttl }

/-- `PerformanceCache.get` (`cli.ts` lines 63-73); returns the possibly
evicted cache together with the hit or miss. -/
def cacheGet (c : List (Str × CacheEntry α)) (k : Str) (now : Nat) :
    List (Str × CacheEntry α) × Option α :=
  match mapGet c k with
  | none => (c, none)
  | some e =>
    if e.ttl < now - e.timestamp then (mapDelete c k, none)
    else (c, some e.data)

/-- `PerformanceCache.clear` (`cli.ts` lines 75-77). -/
def cacheClear (_c : List (Str × CacheEntry α)) : List (Str × CacheEntry α) := []

/-- `PerformanceCache.invalidate` (`cli.ts` lines 79-85): delete every key
containing the pattern as a substring. -/
def cacheInvalidate (c : List (Str × CacheEntry α)) (pat : Str) :
    List (Str × CacheEntry α) :=
  c.filter fun p => !(strIncludes p.1 pat)

/-- The status filter variants (`cli.ts` line 122). -/
inductive FilterStatus
  | all
  | pending
  | applied
  | failed
deriving DecidableEq, Repr

/-- The string comparison `m.status === this.filterStatus` of `cli.ts`
line 609 (only reached when the filter is not `all`). -/
def statusMatchesFilter : MigStatus → FilterStatus → Bool
  | .pending, .pending => true
  | .applied, .applied => true
  | .failed, .failed => true
  | _, _ => false

/-- `getFilteredMigrations` (`cli.ts` lines 605-621): status filter first,
then — when the search term is non-empty — a case-insensitive substring
filter over name or description. -/
def getFilteredMigrations (ms : List Migration) (fs : FilterStatus)
    (term : Str) : List Migration :=
  let f1 := if fs = .all then ms else ms.filter fun m => statusMatchesFilter m.status fs
  if term = [] then f1
  else
    let t := toLowerStr term
    f1.filter fun m =>
      strIncludes (toLowerStr m.name) t ||
      (match m.description with
       | some d => strIncludes (toLowerStr d) t
       | none => false)

/-- The selection clamp of `updateMigrationsList` (`cli.ts` lines 642-644):
an out-of-range index becomes `Math.max(0, length - 1)`. -/
def clampIndex (idx len : Nat) : Nat :=
  if len ≤ idx then (max 0 ((len : Int) - 1)).toNat else idx

/-- Log levels of the `log` method (`cli.ts` line 678). -/
inductive LogLevel
  | info
  | success
  | warning
  | error
deriving DecidableEq, Repr

/-- The log messages emitted by `loadMigrations`, with their dynamic parts;
the textual formatting (timestamps, colors, emoji) is display-only. -/
inductive LogMsg
  | loadingMigrations
  | couldNotFetchStatus (err : Str)
  | loadedMigrations (n : Nat)
  | errorLoadingMigrations (err : Str)
deriving DecidableEq, Repr

/-- `DatabaseInfo` (`cli.ts` lines 22-29). -/
structure DatabaseInfo where
  host : Str
  database : Str
  connected : Bool
  migrationsCount : Nat
  pendingCount : Nat
  lastCheck : Nat
deriving DecidableEq, Repr

/-- The mutable fields of `ModernMigrationShell` that `loadMigrations` and
the filter/search/selection handlers touch (`cli.ts` lines 98-124). -/
structure ShellState where
  migrations : List Migration
  dbInfo : DatabaseInfo
  cache : List (Str × CacheEntry (List Migration))
  isLoading : Bool
  selectedIndex : Nat
  filterStatus : FilterStatus
  searchTerm : Str
  logBuffer : List (LogLevel × LogMsg)
deriving DecidableEq, Repr

/-- `MAX_LOG_ENTRIES` (`cli.ts` line 124). -/
def MAX_LOG_ENTRIES : Nat := 1000

/-- The log ring buffer push of the `log` method (`cli.ts` lines 696-700):
append, then keep only the last `MAX_LOG_ENTRIES` entries. -/
def logPush (buf : List (LogLevel × LogMsg)) (e : LogLevel × LogMsg) :
    List (LogLevel × LogMsg) :=
  let b := buf ++ [e]
  if MAX_LOG_ENTRIES < b.length then b.drop (b.length - MAX_LOG_ENTRIES) else b

/-- State effect of `this.log(message, type)`. -/
def shellLog (st : ShellState) (lv : LogLevel) (msg : LogMsg) : ShellState :=
  { st with logBuffer := logPush st.logBuffer (lv, msg) }

/-- State effect of `updateMigrationsList` (`cli.ts` lines 623-648): the
only mutated state is the selection clamp against the filtered length. -/
def updateMigrationsList (st : ShellState) : ShellState :=
  let len := (getFilteredMigrations st.migrations st.filterStatus st.searchTerm).length
  { st with selectedIndex := clampIndex st.selectedIndex len }

/-- The cache key of `loadMigrations` (`cli.ts` line 460). -/
def migrationsKey : Str := "migrations".toList

/-- The ttl used for the inventory cache entry (`cli.ts` line 542). -/
def MIGRATIONS_CACHE_TTL : Nat := 60000

/-- Result of one `loadMigrations` call: the new state plus whether the
directory scan and the external status command were actually performed. -/
structure LoadResult where
  state : ShellState
  didScan : Bool
  didRunStatus : Bool
deriving DecidableEq, Repr

/-- Pure model of `loadMigrations` (`cli.ts` lines 457-555).  The directory
scan and the external status command are passed in as `Except` values:
`.error` is the caught exception (its message), `.ok` the directory listing
or the captured stdout. -/
def loadMigrations (st : ShellState) (now : Nat)
    (scanResult : Except Str (List ScanFile))
    (statusResult : Except Str Str) : LoadResult :=
  if st.isLoading then ⟨st, false, false⟩
  else
    let got := cacheGet st.cache migrationsKey now
    match got.2 with
    | some cached =>
      ⟨updateMigrationsList { st with cache := got.1, migrations := cached },
       false, false⟩
    | none =>
      let st1 := shellLog { st with cache := got.1, isLoading := true }
        .info .loadingMigrations
      match scanResult with
      | .error e =>
        ⟨{ (shellLog st1 .error (.errorLoadingMigrations e)) with isLoading := false },
         true, false⟩
      | .ok files =>
        let recs0 := scanMigrations files
        let next :=
          match statusResult with
          | .ok output =>
            (reconcileAll (parseAppliedMigrations output) recs0,
             { st1 with dbInfo := { st1.dbInfo with connected := true } })
          | .error e =>
            (recs0,
             shellLog { st1 with dbInfo := { st1.dbInfo with connected := false } }
               .warning (.couldNotFetchStatus e))
        let recs := next.1
        let st2 := next.2
        let st3 := { st2 with
          migrations := recs
          dbInfo := { st2.dbInfo with
            migrationsCount := recs.length
            pendingCount := (recs.filter fun m => m.status == .pending).length
            lastCheck := now }
          cache := cacheSet st2.cache migrationsKey recs MIGRATIONS_CACHE_TTL now }
        let st4 := shellLog (updateMigrationsList st3) .success
          (.loadedMigrations recs.length)
        ⟨{ st4 with isLoading := false }, true, true⟩

/-- The initial `dbInfo` (`cli.ts` lines 101-108). -/
def initialDbInfo : DatabaseInfo :=
  { host := "localhost".toList
    database := "eternal_app".toList
    connected := false
    migrationsCount := 0
    pendingCount := 0
    lastCheck := 0 }

/-- The initial shell state (`cli.ts` lines 98-124). -/
def initialState : ShellState :=
  { migrations := []
    dbInfo := initialDbInfo
    cache := []
    isLoading := false
    selectedIndex := 0
    filterStatus := .all
    searchTerm := []
    logBuffer := [] }

/-- The `commands` section of `MigrationShellConfig` (`cli.ts` lines
40-44): the only three configurable command strings. -/
structure CommandsConfig where
  showStatus : Option Str := none
  migrateUp : Option Str := none
  migrateDown : Option Str := none
deriving DecidableEq, Repr

/-- The `database` section of `MigrationShellConfig` (`cli.ts` lines
45-48). -/
structure DatabaseConfig where
  host : Option Str := none
  name : Option Str := none
deriving DecidableEq, Repr

/-- `MigrationShellConfig` (`cli.ts` lines 37-49). -/
structure MigrationShellConfig where
  migrationsDir : Option Str := none
  autoRefreshInterval : Option Nat := none
  commands : Option CommandsConfig := none
  database : Option DatabaseConfig := none
deriving DecidableEq, Repr

/-- Default status command (`cli.ts` line 130). -/
def defaultShowStatusCmd : Str := "pnpm run migration:show".toList

/-- Default apply-all command (`cli.ts` line 131). -/
def defaultMigrateUpCmd : Str := "pnpm run migrate:up".toList

/-- Default revert-last command (`cli.ts` line 132). -/
def defaultMigrateDownCmd : Str := "pnpm run migrate:down".toList

/-- The resolved `this.commands` record (`cli.ts` lines 93-97). -/
structure ResolvedCommands where
  showStatus : Str
  migrateUp : Str
  migrateDown : Str
deriving DecidableEq, Repr

/-- The constructor's command resolution (`cli.ts` lines 129-133). -/
def resolveCommands (cfg : MigrationShellConfig) : ResolvedCommands :=
  { showStatus := (cfg.commands.bind CommandsConfig.showStatus).getD defaultShowStatusCmd
    migrateUp := (cfg.commands.bind CommandsConfig.migrateUp).getD defaultMigrateUpCmd
    migrateDown := (cfg.commands.bind CommandsConfig.migrateDown).getD defaultMigrateDownCmd }

/-- The command string executed by `createMigration` on submit of a
non-blank name (`cli.ts` line 906).  It is built from a hardcoded literal;
the resolved commands of the instance are not consulted. -/
def createMigrationCommand (_cmds : ResolvedCommands) (name : Str) : Str :=
  "pnpm run migration:create migrations/".toList ++ name

/-- The command string executed by `generateMigration` on submit of a
non-blank name (`cli.ts` line 944).  It is built from a hardcoded literal;
the resolved commands of the instance are not consulted. -/
def generateMigrationCommand (_cmds : ResolvedCommands) (name : Str) : Str :=
  "pnpm run migration:generate migrations/".toList ++ name

/-- The submit handler of `createMigration` (`cli.ts` lines 900-912): only
a name that is non-blank after trimming triggers a command execution. -/
def submitCreateName (cmds : ResolvedCommands) (name : Str) : Option Str :=
  if trimStr name = [] then none else some (createMigrationCommand cmds name)

/-- The submit handler of `generateMigration` (`cli.ts` lines 938-950). -/
def submitGenerateName (cmds : ResolvedCommands) (name : Str) : Option Str :=
  if trimStr name = [] then none else some (generateMigrationCommand cmds name)

/-- The status condition exactly as the specification words it: `All`
passes every record, any other value keeps only records whose status equals
that value.  Stated separately from `getFilteredMigrations` so the two can
be compared. -/
def specStatusPass (fs : FilterStatus) (m : Migration) : Bool :=
  if fs = .all then true else statusMatchesFilter m.status fs

/-- The search condition exactly as the specification words it: a non-empty
term keeps only records whose name or description contains the term
case-insensitively; a record with no description matches only on name. -/
def specSearchPass (term : Str) (m : Migration) : Bool :=
  if term = [] then true
  else
    strIncludes (toLowerStr m.name) (toLowerStr term) ||
    (match m.description with
     | some d => strIncludes (toLowerStr d) (toLowerStr term)
     | none => false)

/-- Directory listing with timestamps 100, 200, 300 (scan order is not
sorted, exercising the sort). -/
def filesC2 : List ScanFile :=
  [{ name := "200_b.ts".toList, birthtimeMs := 0, description := none },
   { name := "100_a.ts".toList, birthtimeMs := 0, description := none },
   { name := "300_c.ts".toList, birthtimeMs := 0, description := none }]

/-- Status output with applied-marker lines for 100 and 300 only. -/
def outputC2 : Str := "Migrations:\n✓ 1 100_a\n[X] 2 300_c\n".toList

/-- A pending record whose name starts with the digit run 123. -/
def migC1 : Migration :=
  { name := "123foo.ts".toList, timestamp := 123, status := .pending,
    description := none }

/-- A status output whose single recognized applied-name token is
`abc123`: its first digit run is `123`, but it has no leading digit run. -/
def outputC1 : Str := "[X] 1 abc123".toList

/-- Two files sharing the leading digit run 100. -/
def filesC3 : List ScanFile :=
  [{ name := "100_a.ts".toList, birthtimeMs := 0, description := none },
   { name := "100_b.ts".toList, birthtimeMs := 0, description := none }]

/-- A single pending record used to build small concrete states. -/
def migSmall : Migration :=
  { name := "1_a.ts".toList, timestamp := 1, status := .pending,
    description := none }

/-- A state that is mid-load (`isLoading` set) while the cache holds a
fresh inventory entry. -/
def stBusy : ShellState :=
  { initialState with
    isLoading := true
    cache := [(migrationsKey, { data := [migSmall], timestamp := 0, ttl := 60000 })] }

/-- A quiescent state whose cache holds a fresh inventory entry. -/
def stCachedFresh : ShellState :=
  { initialState with
    cache := [(migrationsKey, { data := [migSmall], timestamp := 0, ttl := 60000 })] }

/-- A quiescent state with one record and an out-of-range selection. -/
def stOverSelected : ShellState :=
  { initialState with migrations := [migSmall], selectedIndex := 5 }

/-- The inventory ordering invariant: non-decreasing timestamps. -/
def TsSorted (l : List Migration) : Prop :=
  l.Pairwise fun a b => a.timestamp ≤ b.timestamp

/-- The ordering property exactly as the specification states it: every
adjacent pair strictly increases. -/
def TsStrictSorted (l : List Migration) : Prop :=
  l.Chain' fun a b => a.timestamp < b.timestamp

theorem mem_insertByTs {x m : Migration} {l : List Migration} :
    x ∈ insertByTs m l ↔ x = m ∨ x ∈ l := by
  induction l with
  | nil => simp [insertByTs]
  | cons y ys ih =>
    by_cases h : y.timestamp ≤ m.timestamp
    · simp only [insertByTs, if_pos h, List.mem_cons, ih]
      tauto
    · simp only [insertByTs, if_neg h, List.mem_cons]

theorem tsSorted_insertByTs {m : Migration} {l : List Migration}
    (hl : TsSorted l) : TsSorted (insertByTs m l) := by
  induction l with
  | nil => simp [insertByTs, TsSorted]
  | cons y ys ih =>
    rcases List.pairwise_cons.mp hl with ⟨hy, hys⟩
    by_cases h : y.timestamp ≤ m.timestamp
    · simp only [insertByTs, if_pos h]
      refine List.pairwise_cons.mpr ⟨?_, ih hys⟩
      intro x hx
      rcases mem_insertByTs.mp hx with rfl | hx
      · exact h
      · exact hy x hx
    · simp only [insertByTs, if_neg h]
      refine List.pairwise_cons.mpr ⟨?_, hl⟩
      intro x hx
      rcases List.mem_cons.mp hx with rfl | hx
      · omega
      · exact le_trans (by omega) (hy x hx)

theorem tsSorted_foldl_insert (l : List Migration) :
    ∀ acc, TsSorted acc → TsSorted (l.foldl (fun a m => insertByTs m a) acc) := by
  induction l with
  | nil => intro acc h; simpa using h
  | cons m ms ih =>
    intro acc h
    exact ih (insertByTs m acc) (tsSorted_insertByTs h)

theorem tsSorted_sortByTimestamp (l : List Migration) :
    TsSorted (sortByTimestamp l) :=
  tsSorted_foldl_insert l [] (by simp [TsSorted])

theorem mem_foldl_insert (l : List Migration) :
    ∀ acc x, x ∈ l.foldl (fun a m => insertByTs m a) acc → x ∈ acc ∨ x ∈ l := by
  induction l with
  | nil => intro acc x h; simpa using h
  | cons m ms ih =>
    intro acc x h
    rcases ih (insertByTs m acc) x h with h' | h'
    · rcases mem_insertByTs.mp h' with rfl | h''
      · simp
      · exact Or.inl h''
    · simp [h']

theorem mem_sortByTimestamp {x : Migration} {l : List Migration}
    (h : x ∈ sortByTimestamp l) : x ∈ l := by
  rcases mem_foldl_insert l [] x h with h' | h'
  · simp at h'
  · exact h'

theorem timestamp_reconcileOne (applied : List Str) (m : Migration) :
    (reconcileOne applied m).timestamp = m.timestamp := by
  unfold reconcileOne
  split <;> rfl

theorem tsSorted_reconcileAll {applied : List Str} {ms : List Migration}
    (h : TsSorted ms) : TsSorted (reconcileAll applied ms) := by
  unfold reconcileAll TsSorted
  rw [List.pairwise_map]
  refine h.imp ?_
  intro a b hab
  simpa [timestamp_reconcileOne] using hab

theorem status_scanMigrations {m : Migration} {files : List ScanFile}
    (h : m ∈ scanMigrations files) : m.status = .pending := by
  unfold scanMigrations at h
  rcases List.mem_map.mp (mem_sortByTimestamp h) with ⟨f, _, rfl⟩
  rfl


theorem mapGet_map_overwrite (k : Str) (v : β) :
    ∀ m : List (Str × β), (mapGet m k).isSome →
      mapGet (m.map fun p => if p.1 = k then (k, v) else p) k = some v := by
  intro m
  induction m with
  | nil => intro h; simp [mapGet] at h
  | cons p ps ih =>
    intro h
    by_cases hp : p.1 = k
    · simp [mapGet, hp]
    · simp only [mapGet, if_neg hp] at h
      simp only [List.map_cons, if_neg hp, mapGet]
      exact ih h

theorem mapGet_append_absent (k : Str) (v : β) :
    ∀ m : List (Str × β), mapGet m k = none →
      mapGet (m ++ [(k, v)]) k = some v := by
  intro m
  induction m with
  | nil => intro _; simp [mapGet]
  | cons p ps ih =>
    intro h
    by_cases hp : p.1 = k
    · simp [mapGet, if_pos hp] at h
    · simp only [mapGet, if_neg hp] at h
      simp only [List.cons_append, mapGet, if_neg hp]
      exact ih h

theorem mapGet_mapSet_self (m : List (Str × β)) (k : Str) (v : β) :
    mapGet (mapSet m k v) k = some v := by
  unfold mapSet
  by_cases h : (mapGet m k).isSome
  · rw [if_pos h]
    exact mapGet_map_overwrite k v m h
  · rw [if_neg h]
    exact mapGet_append_absent k v m (Option.not_isSome_iff_eq_none.mp h)

theorem mapGet_mapDelete_self (m : List (Str × β)) (k : Str) :
    mapGet (mapDelete m k) k = none := by
  induction m with
  | nil => rfl
  | cons p ps ih =>
    by_cases hp : p.1 = k
    · simpa [mapDelete, List.filter_cons, hp] using ih
    · simpa [mapDelete, List.filter_cons, hp, mapGet] using ih

theorem mem_mapSet {m : List (Str × β)} {k : Str} {v : β} {p : Str × β}
    (h : p ∈ mapSet m k v) : p ∈ m ∨ p = (k, v) := by
  unfold mapSet at h
  split at h
  · rcases List.mem_map.mp h with ⟨q, hq, hval⟩
    by_cases hqk : q.1 = k
    · rw [if_pos hqk] at hval
      exact Or.inr hval.symm
    · rw [if_neg hqk] at hval
      exact Or.inl (hval ▸ hq)
  · rcases List.mem_append.mp h with h' | h'
    · exact Or.inl h'
    · simp only [List.mem_singleton] at h'
      exact Or.inr h'

theorem mem_cacheGet_fst {c : List (Str × CacheEntry α)} {k : Str} {now : Nat}
    {p : Str × CacheEntry α} (h : p ∈ (cacheGet c k now).1) : p ∈ c := by
  unfold cacheGet at h
  split at h
  · exact h
  · split at h
    · simp only at h
      exact List.mem_of_mem_filter h
    · exact h

theorem mapGet_some_mem {c : List (Str × β)} {k : Str} {e : β} :
    mapGet c k = some e → ∃ p ∈ c, p.2 = e := by
  induction c with
  | nil => intro h; simp [mapGet] at h
  | cons p ps ih =>
    intro h
    by_cases hp : p.1 = k
    · simp only [mapGet, if_pos hp, Option.some.injEq] at h
      exact ⟨p, List.mem_cons_self p ps, h⟩
    · simp only [mapGet, if_neg hp] at h
      rcases ih h with ⟨q, hq, hqe⟩
      exact ⟨q, List.mem_cons_of_mem p hq, hqe⟩

theorem cacheGet_some {c : List (Str × CacheEntry α)} {k : Str} {now : Nat} {v : α}
    (h : (cacheGet c k now).2 = some v) : ∃ p ∈ c, p.2.data = v := by
  unfold cacheGet at h
  split at h
  · simp at h
  · rename_i e he
    split at h
    · simp at h
    · simp only [Option.some.injEq] at h
      rcases mapGet_some_mem he with ⟨p, hp, hpe⟩
      exact ⟨p, hp, by rw [hpe, h]⟩

theorem logPush_eq_append (b : List (LogLevel × LogMsg)) (x : LogLevel × LogMsg) :
    ∃ b', logPush b x = b' ++ [x] := by
  unfold logPush
  by_cases h : MAX_LOG_ENTRIES < (b ++ [x]).length
  · rw [if_pos h]
    refine ⟨b.drop ((b ++ [x]).length - MAX_LOG_ENTRIES), ?_⟩
    rw [List.drop_append_of_le_length]
    simp only [List.length_append, List.length_singleton, MAX_LOG_ENTRIES] at h ⊢
    omega
  · rw [if_neg h]
    exact ⟨b, rfl⟩

theorem mem_logPush_self (b : List (LogLevel × LogMsg)) (x : LogLevel × LogMsg) :
    x ∈ logPush b x := by
  rcases logPush_eq_append b x with ⟨b', hb⟩
  rw [hb]
  simp

theorem mem_logPush_of_last {b' : List (LogLevel × LogMsg)}
    {x y : LogLevel × LogMsg} : x ∈ logPush (b' ++ [x]) y := by
  unfold logPush
  by_cases h : MAX_LOG_ENTRIES < ((b' ++ [x]) ++ [y]).length
  · rw [if_pos h]
    rw [List.drop_append_of_le_length, List.drop_append_of_le_length]
    · simp
    · simp only [List.length_append, List.length_singleton, MAX_LOG_ENTRIES] at h ⊢
      omega
    · simp only [List.length_append, List.length_singleton, MAX_LOG_ENTRIES] at h ⊢
      omega
  · rw [if_neg h]
    simp

theorem tsSorted_scanMigrations (files : List ScanFile) :
    TsSorted (scanMigrations files) :=
  tsSorted_sortByTimestamp _

theorem isAppliedMig_iff (applied : List Str) (name : Str) :
    isAppliedMig applied name = true ↔
      ∃ ds, leadingDigitRun (baseNameOf name) = some ds ∧
        ∃ tok ∈ applied, firstDigitRun tok = some ds := by
  unfold isAppliedMig
  cases hld : leadingDigitRun (baseNameOf name) with
  | none => simp [hld]
  | some mts =>
    simp only [hld, List.any_eq_true, Option.some.injEq]
    constructor
    · rintro ⟨an, han, hcond⟩
      cases hfa : firstDigitRun an with
      | none => rw [hfa] at hcond; simp at hcond
      | some ats =>
        rw [hfa] at hcond
        simp only [beq_iff_eq] at hcond
        exact ⟨mts, rfl, an, han, by rw [hfa, hcond]⟩
    · rintro ⟨ds, hds, an, han, hfa⟩
      refine ⟨an, han, ?_⟩
      rw [hfa]
      simp [hds]

/-- Claim C1 (corrected): a pending inventory record is marked `applied`
by the reconciliation exactly when its leading digit run (extension
stripped) equals, by exact string equality, the *first digit run appearing
anywhere* in some recognized applied-name token parsed from the output —
not the token's leading digit run, as the claim states; when no token
matches, the status stays `pending`. -/
theorem reconcile_applied_iff_digit_runs (output : Str) (m : Migration)
    (hm : m.status = .pending) :
    ((reconcileOne (parseAppliedMigrations output) m).status = .applied ↔
      (∃ ds, leadingDigitRun (baseNameOf m.name) = some ds ∧
        ∃ tok ∈ parseAppliedMigrations output, firstDigitRun tok = some ds)) ∧
    ((¬ ∃ ds, leadingDigitRun (baseNameOf m.name) = some ds ∧
        ∃ tok ∈ parseAppliedMigrations output, firstDigitRun tok = some ds) →
      (reconcileOne (parseAppliedMigrations output) m).status = .pending) := by
  unfold reconcileOne
  by_cases h : isAppliedMig (parseAppliedMigrations output) m.name
  · rw [if_pos h]
    have := (isAppliedMig_iff (parseAppliedMigrations output) m.name).mp h
    exact ⟨by simpa using this, fun hn => absurd this hn⟩
  · rw [if_neg h]
    constructor
    · rw [hm]
      constructor
      · intro hfalse
        cases hfalse
      · intro hex
        exact absurd ((isAppliedMig_iff (parseAppliedMigrations output) m.name).mpr hex) h
    · intro _
      exact hm

/-- Claim C1 counterexample: the record `123foo.ts` is marked applied from
the token `abc123` (first digit run `123`), although no token's *leading*
digit run matches, refuting the claim as stated. -/
theorem reconcile_c1_counterexample :
    ¬ ((reconcileOne (parseAppliedMigrations outputC1) migC1).status = .applied ↔
      (∃ ds, leadingDigitRun (baseNameOf migC1.name) = some ds ∧
        ∃ tok ∈ parseAppliedMigrations outputC1, leadingDigitRun tok = some ds)) := by
  decide

/-- Concrete instantiation of `reconcile_applied_iff_digit_runs`. -/
theorem reconcile_applied_iff_digit_runs_witness :
    migC1.status = .pending ∧
    ((reconcileOne (parseAppliedMigrations outputC1) migC1).status = .applied ↔
      (∃ ds, leadingDigitRun (baseNameOf migC1.name) = some ds ∧
        ∃ tok ∈ parseAppliedMigrations outputC1, firstDigitRun tok = some ds)) :=
  ⟨by decide, (reconcile_applied_iff_digit_runs outputC1 migC1 (by decide)).1⟩

/-- Claim C2: with files 100/200/300 and applied markers for 100 and 300
only, the reconciled statuses are applied/pending/applied and the
connection summary counts 1 pending of 3 total. -/
theorem load_reconciles_100_200_300 :
    (loadMigrations initialState 1 (.ok filesC2) (.ok outputC2)).state.migrations.map
        (fun m => (m.timestamp, m.status))
      = [(100, .applied), (200, .pending), (300, .applied)] ∧
    (loadMigrations initialState 1 (.ok filesC2) (.ok outputC2)).state.dbInfo.pendingCount = 1 ∧
    (loadMigrations initialState 1 (.ok filesC2) (.ok outputC2)).state.dbInfo.migrationsCount = 3 := by
  decide

/-- Claim C4: immediately after `set(k, v, ttl)` a `get(k)` hits and
returns `v`; a `get(k)` evaluated more than `ttl` milliseconds after the
set misses and evicts the key from the internal map. -/
theorem cache_set_get_ttl {α : Type} (c : List (Str × CacheEntry α)) (k : Str)
    (v : α) (ttl now now2 : Nat) :
    (cacheGet (cacheSet c k v ttl now) k now).2 = some v ∧
    (now + ttl < now2 →
      (cacheGet (cacheSet c k v ttl now) k now2).2 = none ∧
      mapGet (cacheGet (cacheSet c k v ttl now) k now2).1 k = none) := by
  have hget : mapGet (cacheSet c k v ttl now) k
      = some { data := v, timestamp := now, ttl := ttl } :=
    mapGet_mapSet_self c k _
  constructor
  · unfold cacheGet
    rw [hget]
    simp
  · intro h
    unfold cacheGet
    rw [hget]
    have hlt : ttl < now2 - now := by omega
    simp [hlt, mapGet_mapDelete_self]

/-- Concrete instantiation of `cache_set_get_ttl`. -/
theorem cache_set_get_ttl_witness :
    0 + 100 < 151 ∧
    (cacheGet (cacheSet ([] : List (Str × CacheEntry Nat)) ("k".toList) 42 100 0)
      ("k".toList) 151).2 = none ∧
    mapGet (cacheGet (cacheSet ([] : List (Str × CacheEntry Nat)) ("k".toList) 42 100 0)
      ("k".toList) 151).1 ("k".toList) = none :=
  ⟨by decide, (cache_set_get_ttl [] ("k".toList) 42 100 0 151).2 (by decide)⟩

theorem statusStage_eq (ms : List Migration) (fs : FilterStatus) :
    (if fs = .all then ms else ms.filter fun m => statusMatchesFilter m.status fs)
      = ms.filter (specStatusPass fs) := by
  by_cases hfs : fs = .all
  · subst hfs
    rw [if_pos rfl]
    have : specStatusPass FilterStatus.all = fun _ => true := by
      funext m
      simp [specStatusPass]
    rw [this, List.filter_true]
  · rw [if_neg hfs]
    exact List.filter_congr fun m _ => by simp [specStatusPass, hfs]

theorem searchStage_eq (f1 : List Migration) (term : Str) :
    (if term = [] then f1
     else f1.filter fun m =>
       strIncludes (toLowerStr m.name) (toLowerStr term) ||
       (match m.description with
        | some d => strIncludes (toLowerStr d) (toLowerStr term)
        | none => false))
      = f1.filter (specSearchPass term) := by
  by_cases ht : term = []
  · subst ht
    rw [if_pos rfl]
    have : specSearchPass [] = fun _ => true := by
      funext m
      simp [specSearchPass]
    rw [this, List.filter_true]
  · rw [if_neg ht]
    exact List.filter_congr fun m _ => by simp [specSearchPass, ht]

/-- Claim C5: the filtered view is a pure function equal to a single
order-preserving filter by the conjunction of the specification's status
condition (`All` passes everything, otherwise equality of status) and its
search condition (case-insensitive substring of name or description, absent
description matching only on name, empty term passing everything); in
particular the view is a sublist of the inventory, so relative order is
preserved. -/
theorem filtered_view_spec (ms : List Migration) (fs : FilterStatus) (term : Str) :
    getFilteredMigrations ms fs term
      = ms.filter (fun m => specStatusPass fs m && specSearchPass term m) ∧
    (getFilteredMigrations ms fs term).Sublist ms := by
  have hmain : getFilteredMigrations ms fs term
      = ms.filter (fun m => specStatusPass fs m && specSearchPass term m) := by
    calc getFilteredMigrations ms fs term
        = (ms.filter (specStatusPass fs)).filter (specSearchPass term) := by
          unfold getFilteredMigrations
          rw [statusStage_eq ms fs, searchStage_eq]
      _ = ms.filter fun m => specSearchPass term m && specStatusPass fs m :=
          List.filter_filter (specStatusPass fs) ms
      _ = ms.filter fun m => specStatusPass fs m && specSearchPass term m :=
          List.filter_congr fun m _ => Bool.and_comm _ _
  exact ⟨hmain, hmain ▸ List.filter_sublist ms⟩

theorem cacheInvalidate_none_of_included {α : Type}
    {c : List (Str × CacheEntry α)} {pat k : Str}
    (hk : strIncludes k pat = true) :
    mapGet (cacheInvalidate c pat) k = none := by
  induction c with
  | nil => rfl
  | cons p ps ih =>
    by_cases hp : strIncludes p.1 pat = true
    · simpa [cacheInvalidate, List.filter_cons, hp] using ih
    · have hp' : strIncludes p.1 pat = false := Bool.eq_false_iff.mpr hp
      have hpk : ¬ p.1 = k := by
        intro heq
        rw [heq, hk] at hp'
        cases hp'
      simpa [cacheInvalidate, List.filter_cons, hp', mapGet, hpk] using ih

/-- Claim C6: `invalidate(pat)` removes exactly the keys containing `pat`
as a substring — a key containing `pat` no longer resolves, and a key not
containing `pat` still resolves to its previous entry. -/
theorem cacheInvalidate_spec {α : Type} (c : List (Str × CacheEntry α))
    (pat k : Str) :
    mapGet (cacheInvalidate c pat) k
      = if strIncludes k pat then none else mapGet c k := by
  by_cases hk : strIncludes k pat = true
  · rw [if_pos hk]
    exact cacheInvalidate_none_of_included hk
  · have hk' : strIncludes k pat = false := Bool.eq_false_iff.mpr hk
    rw [if_neg (by simp [hk'])]
    induction c with
    | nil => rfl
    | cons p ps ih =>
      by_cases hp : strIncludes p.1 pat = true
      · have hpk : ¬ p.1 = k := by
          intro heq
          rw [heq, hk'] at hp
          cases hp
        simpa [cacheInvalidate, List.filter_cons, hp, mapGet, hpk] using ih
      · have hp' : strIncludes p.1 pat = false := Bool.eq_false_iff.mpr hp
        by_cases hpk : p.1 = k
        · simp [cacheInvalidate, List.filter_cons, hp', mapGet, hpk, hk']
        · simpa [cacheInvalidate, List.filter_cons, hp', mapGet, hpk] using ih

/-- Claim C7: whenever the selection index is not a valid index into the
filtered list, `updateMigrationsList` clamps it to `max(0, length - 1)`
(which is `length - 1` in truncated natural subtraction, and `0` for an
empty filtered result); a valid index is left unchanged, and a length-2
result clamps index 4 to 1. -/
theorem selection_clamped (st : ShellState) :
    ((getFilteredMigrations st.migrations st.filterStatus st.searchTerm).length
        ≤ st.selectedIndex →
      (updateMigrationsList st).selectedIndex
        = (getFilteredMigrations st.migrations st.filterStatus st.searchTerm).length - 1) ∧
    (st.selectedIndex
        < (getFilteredMigrations st.migrations st.filterStatus st.searchTerm).length →
      (updateMigrationsList st).selectedIndex = st.selectedIndex) ∧
    clampIndex 4 2 = 1 ∧ (∀ i, clampIndex i 0 = 0) := by
  refine ⟨?_, ?_, by decide, ?_⟩
  · intro h
    simp only [updateMigrationsList, clampIndex, if_pos h]
    omega
  · intro h
    simp only [updateMigrationsList, clampIndex]
    rw [if_neg (by omega)]
  · intro i
    simp only [clampIndex, if_pos (Nat.zero_le i)]
    omega

/-- Concrete instantiation of `selection_clamped`: one record, selection 5,
clamped to 0. -/
theorem selection_clamped_witness :
    (getFilteredMigrations stOverSelected.migrations stOverSelected.filterStatus
        stOverSelected.searchTerm).length ≤ stOverSelected.selectedIndex ∧
    (updateMigrationsList stOverSelected).selectedIndex
      = (getFilteredMigrations stOverSelected.migrations stOverSelected.filterStatus
          stOverSelected.searchTerm).length - 1 :=
  ⟨by decide, (selection_clamped stOverSelected).1 (by decide)⟩

/-- Claim C9 (code-bug evidence): the create and generate commands are
hardcoded `pnpm` strings — every constructor configuration yields the same
executed command — while the apply-all command (`migrateUp`) is genuinely
configurable.  Only `showStatus`, `migrateUp` and `migrateDown` exist in
the configuration surface. -/
theorem create_generate_commands_hardcoded :
    (∀ (cfg : MigrationShellConfig) (name : Str),
      createMigrationCommand (resolveCommands cfg) name
        = "pnpm run migration:create migrations/".toList ++ name ∧
      generateMigrationCommand (resolveCommands cfg) name
        = "pnpm run migration:generate migrations/".toList ++ name) ∧
    (resolveCommands
        { commands := some
            { showStatus := some ("npm run migration:status".toList)
              migrateUp := some ("npm run custom:up".toList)
              migrateDown := some ("npm run custom:down".toList) } }).migrateUp
      = "npm run custom:up".toList ∧
    createMigrationCommand
        (resolveCommands
          { commands := some
              { showStatus := some ("npm run migration:status".toList)
                migrateUp := some ("npm run custom:up".toList)
                migrateDown := some ("npm run custom:down".toList) } })
        ("foo".toList)
      = "pnpm run migration:create migrations/foo".toList :=
  ⟨fun _ _ => ⟨rfl, rfl⟩, by decide, by decide⟩

/-- Claim C8: when the external status command fails during a load (cache
miss, no load in flight), the scanned inventory is still stored with every
record left `pending`, the connected flag is set to false, the failure is
logged as a warning, and the load completes (the loading guard is released). -/
theorem status_failure_nonfatal (st : ShellState) (now : Nat)
    (files : List ScanFile) (e : Str)
    (h1 : st.isLoading = false)
    (h2 : (cacheGet st.cache migrationsKey now).2 = none) :
    (loadMigrations st now (.ok files) (.error e)).state.migrations
      = scanMigrations files ∧
    (∀ m ∈ (loadMigrations st now (.ok files) (.error e)).state.migrations,
      m.status = .pending) ∧
    (loadMigrations st now (.ok files) (.error e)).state.dbInfo.connected = false ∧
    (LogLevel.warning, LogMsg.couldNotFetchStatus e)
      ∈ (loadMigrations st now (.ok files) (.error e)).state.logBuffer ∧
    (loadMigrations st now (.ok files) (.error e)).state.isLoading = false := by
  refine ⟨?_, ?_, ?_, ?_, ?_⟩
  · simp [loadMigrations, h1, h2, shellLog, updateMigrationsList]
  · intro m hm
    simp only [loadMigrations, h1, Bool.false_eq_true, if_false, h2, shellLog,
      updateMigrationsList] at hm
    exact status_scanMigrations hm
  · simp [loadMigrations, h1, h2, shellLog, updateMigrationsList]
  · simp only [loadMigrations, h1, Bool.false_eq_true, if_false, h2, shellLog,
      updateMigrationsList]
    rcases logPush_eq_append (logPush st.logBuffer (LogLevel.info, LogMsg.loadingMigrations))
        (LogLevel.warning, LogMsg.couldNotFetchStatus e) with ⟨b', hb⟩
    rw [hb]
    exact mem_logPush_of_last
  · simp [loadMigrations, h1, h2, shellLog, updateMigrationsList]

/-- Concrete instantiation of `status_failure_nonfatal`. -/
theorem status_failure_nonfatal_witness :
    initialState.isLoading = false ∧
    (cacheGet initialState.cache migrationsKey 0).2 = none ∧
    (loadMigrations initialState 0 (.ok filesC2)
      (.error ("db down".toList))).state.dbInfo.connected = false :=
  ⟨by decide, by decide,
   (status_failure_nonfatal initialState 0 filesC2 ("db down".toList)
      (by decide) (by decide)).2.2.1⟩

/-- Claim C10 (corrected): provided no load is already in flight, a fresh
cache entry under `migrations` makes `loadMigrations` install the cached
list and return without any directory scan or status-command invocation,
leaving every connection-summary field unchanged. -/
theorem cached_load_short_circuits (st : ShellState) (now : Nat)
    (scanRes : Except Str (List ScanFile)) (statusRes : Except Str Str)
    (ms : List Migration)
    (h1 : st.isLoading = false)
    (h2 : (cacheGet st.cache migrationsKey now).2 = some ms) :
    (loadMigrations st now scanRes statusRes).state.migrations = ms ∧
    (loadMigrations st now scanRes statusRes).didScan = false ∧
    (loadMigrations st now scanRes statusRes).didRunStatus = false ∧
    (loadMigrations st now scanRes statusRes).state.dbInfo = st.dbInfo := by
  simp [loadMigrations, h1, h2, updateMigrationsList]

/-- Claim C10 counterexample: with a load already in flight (`isLoading`
true), a fresh cache entry is *not* installed — `loadMigrations` returns
without touching the inventory, refuting the claim as stated. -/
theorem cached_load_c10_counterexample :
    (cacheGet stBusy.cache migrationsKey 0).2 = some [migSmall] ∧
    (loadMigrations stBusy 0 (.ok []) (.ok [])).state.migrations ≠ [migSmall] := by
  decide

/-- Concrete instantiation of `cached_load_short_circuits`. -/
theorem cached_load_short_circuits_witness :
    stCachedFresh.isLoading = false ∧
    (cacheGet stCachedFresh.cache migrationsKey 0).2 = some [migSmall] ∧
    (loadMigrations stCachedFresh 0 (.ok []) (.ok [])).state.migrations = [migSmall] :=
  ⟨by decide, by decide,
   (cached_load_short_circuits stCachedFresh 0 (.ok []) (.ok []) [migSmall]
      (by decide) (by decide)).1⟩

/-- Claim C3 (corrected): after every load the inventory is sorted in
*non-decreasing* timestamp order (and the cached inventories stay sorted,
so the invariant is preserved across cached and scanning loads alike); the
order is not strict in general, since two filenames can share one leading
digit run. -/
theorem load_sorted_nondecreasing (st : ShellState) (now : Nat)
    (scanRes : Except Str (List ScanFile)) (statusRes : Except Str Str)
    (hc : ∀ p ∈ st.cache, TsSorted p.2.data) (hm : TsSorted st.migrations) :
    TsSorted (loadMigrations st now scanRes statusRes).state.migrations ∧
    ∀ p ∈ (loadMigrations st now scanRes statusRes).state.cache, TsSorted p.2.data := by
  by_cases hl : st.isLoading
  · simp only [loadMigrations, hl, if_true]
    exact ⟨hm, hc⟩
  · have hl' : st.isLoading = false := Bool.eq_false_iff.mpr hl
    rcases hget : (cacheGet st.cache migrationsKey now).2 with _ | cached
    · cases scanRes with
      | error e =>
        simp only [loadMigrations, hl', Bool.false_eq_true, if_false, hget, shellLog]
        refine ⟨hm, ?_⟩
        intro p hp
        exact hc p (mem_cacheGet_fst hp)
      | ok files =>
        have hrecs : ∀ output : Option Str,
            TsSorted (match output with
              | some o => reconcileAll (parseAppliedMigrations o) (scanMigrations files)
              | none => scanMigrations files) := by
          intro output
          cases output with
          | some o => exact tsSorted_reconcileAll (tsSorted_scanMigrations files)
          | none => exact tsSorted_scanMigrations files
        cases statusRes with
        | ok output =>
          simp only [loadMigrations, hl', Bool.false_eq_true, if_false, hget, shellLog,
            updateMigrationsList]
          constructor
          · exact hrecs (some output)
          · intro p hp
            rcases mem_mapSet hp with hp' | hp'
            · exact hc p (mem_cacheGet_fst hp')
            · rw [hp']
              exact hrecs (some output)
        | error e =>
          simp only [loadMigrations, hl', Bool.false_eq_true, if_false, hget, shellLog,
            updateMigrationsList]
          constructor
          · exact hrecs none
          · intro p hp
            rcases mem_mapSet hp with hp' | hp'
            · exact hc p (mem_cacheGet_fst hp')
            · rw [hp']
              exact hrecs none
    · simp only [loadMigrations, hl', Bool.false_eq_true, if_false, hget,
        updateMigrationsList]
      constructor
      · rcases cacheGet_some hget with ⟨p, hp, hdata⟩
        exact hdata ▸ hc p hp
      · intro p hp
        exact hc p (mem_cacheGet_fst hp)

/-- Claim C3 counterexample: loading the two files `100_a.ts` and
`100_b.ts` (equal leading digit runs) yields adjacent records with equal
timestamps, so the inventory is not *strictly* ordered as the claim
states. -/
theorem load_strict_order_counterexample :
    ¬ TsStrictSorted
        (loadMigrations initialState 0 (.ok filesC3)
          (.error ("db down".toList))).state.migrations := by
  intro h
  have hmig : (loadMigrations initialState 0 (.ok filesC3)
        (.error ("db down".toList))).state.migrations
      = [{ name := "100_a.ts".toList, timestamp := 100, status := .pending,
           description := none },
         { name := "100_b.ts".toList, timestamp := 100, status := .pending,
           description := none }] := by decide
  unfold TsStrictSorted at h
  rw [hmig, List.chain'_cons] at h
  exact absurd h.1 (by decide)

/-- Concrete instantiation of `load_sorted_nondecreasing`. -/
theorem load_sorted_nondecreasing_witness :
    (∀ p ∈ initialState.cache, TsSorted p.2.data) ∧
    TsSorted initialState.migrations ∧
    TsSorted (loadMigrations initialState 0 (.ok filesC2)
      (.ok outputC2)).state.migrations :=
  ⟨by simp [initialState], by simp [initialState, TsSorted],
   (load_sorted_nondecreasing initialState 0 (.ok filesC2) (.ok outputC2)
      (by simp [initialState]) (by simp [initialState, TsSorted])).1⟩
